import Mathlib

/-!
Verification of the niauth-js SRP core against its specification.

The definitions below are a shallow embedding of the repository's source:
`src/lib/Utils.ts`, `src/lib/BigInt.ts` (the chunk bundled with
`src/unnamed/part_004`), `src/lib/SRP.ts`, `src/lib/Base64.ts`,
`src/lib/SHA1.ts` and `src/index.ts`.  Arbitrary-precision unsigned
integers (`bigint`) are modelled as `Nat`; byte arrays as `List Nat`
(every produced byte is `< 256` by construction); JS strings as `String`
or `List Char`; thrown JS errors / rejected promises as
`Except String _`.  The platform SHA-1 digest (an external dependency of
the repository, consumed via `src/lib/SHA1.ts`) is modelled concretely so
that every operation is executable.
-/

set_option maxRecDepth 1000000

namespace NIAuth

/-! ### Hex digits: JS `toString(16)` and `parseInt(_, 16)` -/

/-- The hex digit for a value below 16, as JS `toString(16)` renders it:
code points 48-57 for 0-9, 97-102 for a-f (lowercase). -/
def hexDig (n : Nat) : Char := Char.ofNat (if n < 10 then 48 + n else 87 + n)

/-- The sixteen lowercase hex digits. -/
def hexChars : List Char := (List.range 16).map hexDig

/-- The numeric value of a hex digit as `parseInt(_, 16)` reads it, by
code point: digits, lowercase and uppercase letters; `none` otherwise. -/
def hexCharVal (c : Char) : Option Nat :=
  let n := c.toNat
  if 48 ≤ n ∧ n ≤ 57 then some (n - 48)
  else if 97 ≤ n ∧ n ≤ 102 then some (n - 87)
  else if 65 ≤ n ∧ n ≤ 70 then some (n - 55)
  else none

def isHexChar (c : Char) : Bool := (hexCharVal c).isSome

/-- Value of a hex-digit string (most significant digit first). -/
def hexValList (l : List Char) : Nat :=
  l.foldl (fun a c => 16 * a + (hexCharVal c).getD 0) 0

/-- JS `parseInt(s, 16)`: parse the longest valid leading hex prefix;
`none` models `NaN` (no valid leading digit). -/
def jsParseIntHex (l : List Char) : Option Nat :=
  let pre := l.takeWhile isHexChar
  if pre.isEmpty then none else some (hexValList pre)

/-- Fueled core of JS `toString(16)` on an unsigned big integer; fuel
`n + 1` always suffices since `n / 16 < n` once `n ≥ 16`. -/
def natToHexAux : Nat → Nat → List Char
  | 0, _ => []
  | f + 1, n => if n < 16 then [hexDig n] else natToHexAux f (n / 16) ++ [hexDig (n % 16)]

def natToHex (n : Nat) : List Char := natToHexAux (n + 1) n

/-- JS `s.substr(-k)`: the last `k` characters. -/
def substrLast (k : Nat) (l : List Char) : List Char := l.drop (l.length - k)

/-- JS `('00' + s).substr(-2)` where `s = n.toString(16)`. -/
def pad2Hex (n : Nat) : List Char := substrLast 2 (['0', '0'] ++ natToHex n)

/-- JS `('0000' + s).substr(-4)` where `s = n.toString(16)`. -/
def pad4Hex (n : Nat) : List Char := substrLast 4 (['0', '0', '0', '0'] ++ natToHex n)

/-! ### SHA-1 over byte lists

`src/lib/SHA1.ts` delegates to a platform SHA-1 implementation; the spec
treats the digest as an external dependency with SHA-1 semantics, which
are modelled here directly so all operations stay executable. -/

def w32 : Nat := 4294967296

def add32 (a b : Nat) : Nat := (a + b) % w32

def rotl32 (s x : Nat) : Nat := ((x % 2 ^ (32 - s)) * 2 ^ s) + x / 2 ^ (32 - s)

def not32 (x : Nat) : Nat := x ^^^ (w32 - 1)

structure SHA1State where
  h0 : Nat
  h1 : Nat
  h2 : Nat
  h3 : Nat
  h4 : Nat
deriving DecidableEq

def sha1Init : SHA1State := ⟨0x67452301, 0xEFCDAB89, 0x98BADCFE, 0x10325476, 0xC3D2E1F0⟩

/-- Big-endian 8-byte encoding of the 64-bit message length in bits. -/
def lenBytes64 (n : Nat) : List Nat :=
  [n / 2 ^ 56 % 256, n / 2 ^ 48 % 256, n / 2 ^ 40 % 256, n / 2 ^ 32 % 256,
   n / 2 ^ 24 % 256, n / 2 ^ 16 % 256, n / 2 ^ 8 % 256, n % 256]

def sha1Pad (msg : List Nat) : List Nat :=
  let L := msg.length
  let k := (L + 1) % 64
  let zeros := if k ≤ 56 then 56 - k else 120 - k
  msg ++ [128] ++ List.replicate zeros 0 ++ lenBytes64 (L * 8)

/-- Split the padded message into big-endian 32-bit words. -/
def bytesToWords : List Nat → List Nat
  | b0 :: b1 :: b2 :: b3 :: t =>
      (b0 * 2 ^ 24 + b1 * 2 ^ 16 + b2 * 2 ^ 8 + b3) :: bytesToWords t
  | _ => []

def wordsToBlocks : List Nat → List (List Nat)
  | w0 :: w1 :: w2 :: w3 :: w4 :: w5 :: w6 :: w7 :: w8 :: w9 :: w10 :: w11 :: w12 :: w13 :: w14 :: w15 :: t =>
      [w0, w1, w2, w3, w4, w5, w6, w7, w8, w9, w10, w11, w12, w13, w14, w15] :: wordsToBlocks t
  | _ => []

/-- Extend a 16-word block to the 80-word message schedule. -/
def sha1Extend : Nat → List Nat → List Nat
  | 0, ws => ws
  | f + 1, ws =>
      let n := ws.length
      let w := rotl32 1 (((ws.getD (n - 3) 0 ^^^ ws.getD (n - 8) 0) ^^^ ws.getD (n - 14) 0) ^^^ ws.getD (n - 16) 0)
      sha1Extend f (ws ++ [w])

def sha1F (t b c d : Nat) : Nat :=
  if t < 20 then (b &&& c) ||| (not32 b &&& d)
  else if t < 40 then (b ^^^ c) ^^^ d
  else if t < 60 then ((b &&& c) ||| (b &&& d)) ||| (c &&& d)
  else (b ^^^ c) ^^^ d

def sha1K (t : Nat) : Nat :=
  if t < 20 then 0x5A827999
  else if t < 40 then 0x6ED9EBA1
  else if t < 60 then 0x8F1BBCDC
  else 0xCA62C1D6

def sha1Rounds : Nat → List Nat → Nat × Nat × Nat × Nat × Nat → Nat × Nat × Nat × Nat × Nat
  | _, [], st => st
  | t, w :: ws, (a, b, c, d, e) =>
      let temp := (rotl32 5 a + sha1F t b c d + e + sha1K t + w) % w32
      sha1Rounds (t + 1) ws (temp, a, rotl32 30 b, c, d)

def sha1Block (st : SHA1State) (block : List Nat) : SHA1State :=
  let ws := sha1Extend 64 block
  let r := sha1Rounds 0 ws (st.h0, st.h1, st.h2, st.h3, st.h4)
  ⟨add32 st.h0 r.1, add32 st.h1 r.2.1, add32 st.h2 r.2.2.1,
   add32 st.h3 r.2.2.2.1, add32 st.h4 r.2.2.2.2⟩

def sha1Blocks : SHA1State → List (List Nat) → SHA1State
  | st, [] => st
  | st, b :: bs => sha1Blocks (sha1Block st b) bs

def word4Bytes (w : Nat) : List Nat :=
  [w / 2 ^ 24 % 256, w / 2 ^ 16 % 256, w / 2 ^ 8 % 256, w % 256]

/-- SHA-1 digest: 20 bytes, each `< 256`. -/
def sha1Bytes (msg : List Nat) : List Nat :=
  let st := sha1Blocks sha1Init (wordsToBlocks (bytesToWords (sha1Pad msg)))
  word4Bytes st.h0 ++ word4Bytes st.h1 ++ word4Bytes st.h2 ++ word4Bytes st.h3 ++ word4Bytes st.h4

/-- `byteArrayToHashString` from `src/lib/Utils.ts`:
`('00' + (byte & 0xff).toString(16)).substr(-2)` for each byte. -/
def byteArrayToHashString (l : List Nat) : List Char :=
  l.flatMap (fun b => pad2Hex (b % 256))

/-- The repository's `sha1` (`src/lib/SHA1.ts`): hex-string digest. -/
def sha1Hex (msg : List Nat) : List Char := byteArrayToHashString (sha1Bytes msg)

/-- UTF-8 bytes of a string (`TextEncoder`, used by `sha1` on strings). -/
def utf8Char (c : Char) : List Nat :=
  let n := c.toNat
  if n < 128 then [n]
  else if n < 2048 then [192 + n / 64, 128 + n % 64]
  else if n < 65536 then [224 + n / 4096, 128 + n / 64 % 64, 128 + n % 64]
  else [240 + n / 262144, 128 + n / 4096 % 64, 128 + n / 64 % 64, 128 + n % 64]

def utf8Encode (s : String) : List Nat := s.data.flatMap utf8Char

/-! ### `src/lib/Utils.ts` -/

/-- `HashStringToByteArray`: parse a hex string two characters at a time;
`new Uint8Array` coerces a `NaN` entry (invalid chunk) to `0`. -/
def HashStringToByteArray : List Char → List Nat
  | c1 :: c2 :: t => (jsParseIntHex [c1, c2]).getD 0 :: HashStringToByteArray t
  | [c1] => [(jsParseIntHex [c1]).getD 0]
  | [] => []

/-- One pass of the `xorHashStrings` loop: 16-bit chunks, four hex chars at
a time; a trailing chunk shorter than four characters is processed as-is
(JS `substr(i, 4)` clips at the end of the string).  `ToInt32(NaN) = 0`
models `parseInt` failure on a malformed chunk. -/
def xorChunks : List Char → List Char → List Char
  | [], _ => []
  | a1 :: a2 :: a3 :: a4 :: as, bs =>
      pad4Hex ((jsParseIntHex [a1, a2, a3, a4]).getD 0 ^^^ (jsParseIntHex (bs.take 4)).getD 0)
        ++ xorChunks as (bs.drop 4)
  | as, bs => pad4Hex ((jsParseIntHex as).getD 0 ^^^ (jsParseIntHex (bs.take 4)).getD 0)

def xorHashStrings (a b : String) : Except String String :=
  if a.length ≠ b.length then .error "strings not same length"
  else .ok ⟨xorChunks a.data b.data⟩

/-! ### `src/lib/BigInt.ts` -/

/-- `bigIntToHex`: JS `toString(16)` with a leading `'0'` when the digit
count is odd. -/
def bigIntToHex (n : Nat) : List Char :=
  let s := natToHex n
  if s.length % 2 ≠ 0 then '0' :: s else s

/-- `BigInt('0x' + hex)`: `none` models the `SyntaxError` thrown on an
empty or invalid hex string. -/
def bigIntFromHex (l : List Char) : Option Nat :=
  if l.isEmpty then none
  else if l.all isHexChar then some (hexValList l) else none

def ofHex (l : List Char) : Except String Nat :=
  match bigIntFromHex l with
  | some v => .ok v
  | none => .error "SyntaxError: cannot convert to a BigInt"

/-- `bigIntegerToBytes` (the repository's `toFixedBytes`): exact width, or
left-zero-pad, or strip excess leading zero bytes; a nonzero excess
leading byte throws. -/
def bigIntegerToBytes (bi byteCount : Nat) : Except String (List Nat) :=
  let bytes := HashStringToByteArray (bigIntToHex bi)
  if bytes.length = byteCount then .ok bytes
  else if bytes.length < byteCount then
    .ok (List.replicate (byteCount - bytes.length) 0 ++ bytes)
  else if (bytes.take (bytes.length - byteCount)).all (fun b => b == 0) then
    .ok (bytes.drop (bytes.length - byteCount))
  else .error ("attmpted to truncate to " ++ toString byteCount)

/-- `bigIntFromByteArray` (the repository's `fromBytes`). -/
def bigIntFromByteArray (l : List Nat) : Option Nat :=
  bigIntFromHex (byteArrayToHashString l)

/-! ### `modPow` (the `bigint-mod-arith` dependency)

Modular exponentiation, `b ^ e % m` for nonnegative arguments, written as
fueled fast exponentiation so witnesses with hash-sized exponents stay
executable; `modPow_eq_pow_mod` below relates it to `b ^ e % m`. -/

def modPowAux : Nat → Nat → Nat → Nat → Nat
  | 0, _, _, m => 1 % m
  | _ + 1, _, 0, m => 1 % m
  | f + 1, b, e, m =>
      let r := modPowAux f (b * b % m) (e / 2) m
      if e % 2 = 1 then r * b % m else r

def modPow (b e m : Nat) : Nat := modPowAux (e + 1) b e m

/-! ### Dynamically typed JS values

`src/lib/SRP.ts` guards its entry points with dynamic kind checks
(`isbigint`, `isString`, `isUint8Array`); `JSVal` models the values those
checks can encounter. -/

inductive JSVal where
  | big (n : Nat)
  | str (s : String)
  | bytes (l : List Nat)
  | num (x : Int)
  | boolean (b : Bool)
  | jsUndefined
  | jsNull
deriving DecidableEq

/-- JS truthiness (used by `username || ''`). -/
def truthy : JSVal → Bool
  | .big n => n != 0
  | .str s => s != ""
  | .bytes _ => true
  | .num x => x != 0
  | .boolean b => b
  | .jsUndefined => false
  | .jsNull => false

def optToJS : Option Nat → JSVal
  | some n => .big n
  | none => .jsUndefined

/-! ### `SRPOps` (`src/lib/SRP.ts`)

Functions whose arguments are statically `bigint`/`Uint8Array`/`string`
at every modelled call site are embedded with typed arguments (their
dynamic kind checks always pass); the operations reachable with
dynamically wrong kinds (`u` and `Ss` via `Server.finishLogin`'s untyped
`clientParams` and unset fields, `x` via its defaulting of falsy
arguments, `Ms` via `finishLogin`) additionally get a `JS`-suffixed
wrapper carrying the source's checks. -/

namespace SRPOps

/-- `SRPOps.A`: `g ^ a % N`. -/
def A (N g a : Nat) : Nat := modPow g a N

/-- `SRPOps.v`: `g ^ x % N`. -/
def v (N g x : Nat) : Nat := modPow g x N

/-- `SRPOps.u`: hash of the two public keys, each padded to 128 bytes. -/
def u (A B : Nat) : Except String Nat := do
  let Ab ← bigIntegerToBytes A 128
  let Bb ← bigIntegerToBytes B 128
  ofHex (sha1Hex (Ab ++ Bb))

/-- `SRPOps.u` as invoked with dynamically typed arguments. -/
def uJS : JSVal → JSVal → Except String Nat
  | .big a, .big b => u a b
  | _, _ => .error "invalid argument: A and B must be big int for u"

/-- `SRPOps.k`: hash of modulus and generator, each padded to 128 bytes. -/
def k (N g : Nat) : Except String Nat := do
  let Nb ← bigIntegerToBytes N 128
  let gb ← bigIntegerToBytes g 128
  ofHex (sha1Hex (Nb ++ gb))

/-- `SRPOps.x`: `H(salt ‖ H(user ‖ ":" ‖ pass))` as an integer. -/
def x (salt : List Nat) (username password : String) : Except String Nat :=
  let concat1 := username ++ ":" ++ password
  let concat1Sha := sha1Hex (utf8Encode concat1)
  let concat1ShaBytes := HashStringToByteArray concat1Sha
  ofHex (sha1Hex (salt ++ concat1ShaBytes))

/-- `SRPOps.x` with the source's dynamic checks: falsy `username` /
`password` are first replaced by `''` (`username || ''`), then the salt
must be a byte array and the (possibly defaulted) username and password
must be strings. -/
def xJS (salt username password : JSVal) : Except String Nat :=
  let user := if truthy username then username else .str ""
  let pass := if truthy password then password else .str ""
  match salt with
  | .bytes sl =>
    match user, pass with
    | .str us, .str ps => x sl us ps
    | _, _ => .error "invalid argument: User and password must be string for x"
  | _ => .error "invalid argument: salt must be byte array for x"

/-- `SRPOps.Sc`, the client-side shared secret:
`(B + k * (N - g ^ x % N) % N) ^ (a + u * x) % N`. -/
def Sc (N g B k x a u : Nat) : Nat :=
  let gModpowXN := modPow g x N
  let nSubGModpowX := N - gModpowXN
  let bPrime := B + k * nSubGModpowX % N
  modPow bPrime (a + u * x) N

/-- `SRPOps.Ss`, the server-side shared secret: `(A * (v ^ u % N)) ^ b % N`. -/
def Ss (N A v u b : Nat) : Nat :=
  let vModpowUN := modPow v u N
  modPow (A * vModpowUN) b N

/-- `SRPOps.Ss` as invoked with dynamically typed arguments. -/
def SsJS : JSVal → JSVal → JSVal → JSVal → JSVal → Except String Nat
  | .big n, .big a, .big vv, .big uu, .big bb => .ok (Ss n a vv uu bb)
  | _, _, _, _, _ => .error "invalid argument: N, A, v, b, u must be big int for Ss"

/-- `MGF1SHA1`: concatenated hex digests of the input with 4-byte
counter suffixes `0` and `1`. -/
def MGF1SHA1 (byteArray : List Nat) : List Char :=
  sha1Hex (byteArray ++ [0, 0, 0, 0]) ++ sha1Hex (byteArray ++ [0, 0, 0, 1])

/-- `SRPOps.K`: the 40-byte session key, MGF1-SHA1 of `S` padded to
128 bytes. -/
def K (S : Nat) : Except String (List Nat) := do
  let Sb ← bigIntegerToBytes S 128
  .ok (HashStringToByteArray (MGF1SHA1 Sb))

/-- `SRPOps.Mc`, the client proof:
`H((H(pad(N,128)) xor H(pad(g,1))) ‖ H(user) ‖ salt ‖ pad(A,128) ‖ pad(B,128) ‖ K)`. -/
def Mc (N g : Nat) (username : String) (salt : List Nat) (A B : Nat) (K : List Nat) :
    Except String (List Char) := do
  let Nb ← bigIntegerToBytes N 128
  let gb ← bigIntegerToBytes g 1
  let shaN := sha1Hex Nb
  let shag := sha1Hex gb
  let shaUser := sha1Hex (utf8Encode username)
  let xored ← xorHashStrings ⟨shaN⟩ ⟨shag⟩
  let ret := HashStringToByteArray xored.data
  let shau := HashStringToByteArray shaUser
  let Ab ← bigIntegerToBytes A 128
  let Bb ← bigIntegerToBytes B 128
  .ok (sha1Hex (ret ++ shau ++ salt ++ Ab ++ Bb ++ K))

/-- `SRPOps.Ms`, the server proof: `H(pad(A,128) ‖ M1-bytes ‖ K)`. -/
def Ms (A : Nat) (M : List Char) (K : List Nat) : Except String (List Char) := do
  let Mary := HashStringToByteArray M
  let Ab ← bigIntegerToBytes A 128
  .ok (sha1Hex (Ab ++ Mary ++ K))

/-- `SRPOps.Ms` as invoked with a dynamically typed public key. -/
def MsJS (A : JSVal) (M : List Char) (K : List Nat) : Except String (List Char) :=
  match A with
  | .big a => Ms a M K
  | _ => .error "invalid argument: A should be Big Integer for Ms"

/-- `SRPOps.B`: `(k * v + g ^ b % N) % N`. -/
def Bop (N g v b : Nat) : Except String Nat := do
  let kv ← k N g
  .ok ((kv * v + modPow g b N) % N)

end SRPOps

/-! ### `Client` (`src/lib/SRP.ts`) -/

structure Identity where
  username : String
  password : String
deriving DecidableEq

structure ServerInfo where
  modulus : Nat
  generator : Nat
  salt : List Nat
  publicKey : Nat
  loginToken : String
deriving DecidableEq

structure ClientProof where
  clientPublicKey : Nat
  clientProof : List Char
deriving DecidableEq

structure Client where
  identity : Option Identity
  serverInfo : Option ServerInfo
deriving DecidableEq

/-- `Client.generatePublicKeyAndProof`, with the ephemeral random `a`
(`SRPOps.a()`, a 512-bit secure random integer) passed explicitly.
Returns the `{A, M1}` response together with the stored shared key `K`. -/
def Client.generatePublicKeyAndProof (c : Client) (a : Nat) :
    Except String (ClientProof × List Nat) :=
  match c.serverInfo, c.identity with
  | some si, some id => do
    let N := si.modulus
    let g := si.generator
    let s := si.salt
    let B := si.publicKey
    if B % N = 0 then .error "precondition fail"
    else do
      let A := SRPOps.A N g a
      let u ← SRPOps.u A B
      if u = 0 then .error "precondition fail"
      else do
        let k ← SRPOps.k N g
        if k = 0 then .error "precondition fail"
        else do
          let x ← SRPOps.x s id.username id.password
          let S := SRPOps.Sc N g B k x a u
          let K ← SRPOps.K S
          let M ← SRPOps.Mc N g id.username s A B K
          .ok (⟨A, M⟩, K)
  | _, _ => .error "Server Info and client identity Must Be Set First"

/-! ### `Server` (`src/lib/SRP.ts`) -/

/-- The `Server`'s mutable fields; every field is `undefined` (`none`)
until `startLogin` assigns it. -/
structure ServerState where
  modulus : Option Nat
  generator : Option Nat
  salt : Option (List Nat)
  serverPrivateKey : Option Nat
  serverPublicKey : Option Nat
  verifier : Option Nat
deriving DecidableEq

/-- A freshly constructed `Server`: no field assigned yet. -/
def ServerState.init : ServerState :=
  ⟨none, none, none, none, none, none⟩

/-- A `Server` on which `startLogin` has completed (the `Started` state):
every session field holds a value. -/
def ServerState.started (N g : Nat) (s : List Nat) (b B v : Nat) : ServerState :=
  ⟨some N, some g, some s, some b, some B, some v⟩

/-- The untyped `clientParams` argument of `finishLogin`. -/
structure ClientParams where
  clientPublicKey : JSVal
  clientProof : String
deriving DecidableEq

structure FinishResult where
  serverProof : List Char
  sharedKey : List Nat
deriving DecidableEq

/-- `Server.finishLogin`: computes `u` from the client's public key and
the stored server public key, rejects `u = 0`, then derives `S`, `K` and
the server proof `M2`.  The result carries the returned `serverProof`
and the assigned `this.sharedKey`. -/
def Server.finishLogin (st : ServerState) (cp : ClientParams) :
    Except String FinishResult := do
  let N := optToJS st.modulus
  let B := optToJS st.serverPublicKey
  let b := optToJS st.serverPrivateKey
  let v := optToJS st.verifier
  let A := cp.clientPublicKey
  let Mc := cp.clientProof
  let u ← SRPOps.uJS A B
  if u = 0 then .error "precondition fail"
  else do
    let S ← SRPOps.SsJS N A v (.big u) b
    let K ← SRPOps.K S
    let M ← SRPOps.MsJS A Mc.data K
    .ok ⟨M, K⟩

/-! ### `src/lib/Base64.ts` -/

def b64CharVal (c : Char) : Option Nat :=
  if 'A' ≤ c ∧ c ≤ 'Z' then some (c.toNat - 65)
  else if 'a' ≤ c ∧ c ≤ 'z' then some (c.toNat - 97 + 26)
  else if '0' ≤ c ∧ c ≤ '9' then some (c.toNat - 48 + 52)
  else if c = '+' then some 62
  else if c = '/' then some 63
  else none

/-- `window.atob` on a padded base64 string, four characters to three
bytes; `InvalidCharacterError` models the `DOMException` on malformed
input. -/
def atobGroups : List Char → Except String (List Nat)
  | [] => .ok []
  | c1 :: c2 :: c3 :: c4 :: t =>
    match b64CharVal c1, b64CharVal c2 with
    | some v1, some v2 =>
      let b1 := v1 * 4 + v2 / 16
      if c3 = '=' then .ok [b1]
      else
        match b64CharVal c3 with
        | some v3 =>
          let b2 := v2 % 16 * 16 + v3 / 4
          if c4 = '=' then .ok [b1, b2]
          else
            match b64CharVal c4 with
            | some v4 => do
              let rest ← atobGroups t
              .ok (b1 :: b2 :: (v3 % 4 * 64 + v4) :: rest)
            | none => .error "InvalidCharacterError"
        | none => .error "InvalidCharacterError"
    | _, _ => .error "InvalidCharacterError"
  | _ => .error "InvalidCharacterError"

def base64ToByteArray (s : String) : Except String (List Nat) :=
  atobGroups s.data

/-- `b64tohex` from `src/lib/Utils.ts`: each decoded byte rendered as two
hex digits (`padStart(2, '0')`, identical to `pad2Hex` on bytes). -/
def b64tohex (s : String) : Except String (List Char) := do
  let bytes ← base64ToByteArray s
  .ok (bytes.flatMap pad2Hex)

/-! ### `src/index.ts`: parameter-string decoding -/

/-- JS `str.split(sep)`. -/
def splitOn (sep : Char) : List Char → List (List Char)
  | [] => [[]]
  | c :: t =>
    let r := splitOn sep t
    if c = sep then [] :: r
    else
      match r with
      | h :: t' => (c :: h) :: t'
      | [] => [[c]]

/-- One `name=value` entry: everything before the first `'='` is the
name; a part without `'='` is an error. -/
def parseParam (part : List Char) : Except String (String × String) :=
  let name := part.takeWhile (fun c => c != '=')
  let rest := part.dropWhile (fun c => c != '=')
  match rest with
  | '=' :: value => .ok (⟨name⟩, ⟨value⟩)
  | _ => .error "not a valid params string"

def parseParams : List (List Char) → Except String (List (String × String))
  | [] => .ok []
  | p :: ps => do
    let kv ← parseParam p
    let rest ← parseParams ps
    .ok (kv :: rest)

/-- `splitParamsString`: the params object, as an assignment list (later
assignments override earlier ones, as for a JS object). -/
def splitParamsString (str : String) : Except String (List (String × String)) :=
  parseParams (splitOn ',' str.data)

def paramsHas (ps : List (String × String)) (key : String) : Bool :=
  ps.any (fun p => p.1 == key)

def paramsGet (ps : List (String × String)) (key : String) : Option String :=
  (ps.reverse.find? (fun p => p.1 == key)).map (fun p => p.2)

/-- JS `parseInt(s, 10)` restricted to the shapes reachable here: the
longest leading run of decimal digits; `none` models `NaN`. -/
def jsParseInt10 (s : String) : Option Nat :=
  let ds := s.data.takeWhile Char.isDigit
  if ds.isEmpty then none
  else some (ds.foldl (fun a c => 10 * a + (c.toNat - 48)) 0)

/-- The five base64-encoded 1024-bit prime/generator pairs hardcoded in
`src/index.ts`. -/
def primesB64 : List (String × String) :=
  [("ieJUvpnjDnS8CjQLseVMV6+bLPH2bNQLFVj1nVgSrCdErkLGUGhosubcgk6I7XoqM417RFquVMZvqgXMwggvoJyvy003qXK1bukOLlW1cRW6KLCzRBljPsMG6WeNbKqAatVX1MDHtc/d35B4q2ZJ/UXDzFCE2H/MbbJH7yylr2c=",
    "Cw=="),
   ("1XFmKuymyyba31KcEoWXHJco2eqggRxU9/ojMPPAkMaMRGw9WxIgEpfZGsxBOlY/ZciBaFWhbZd6gYK3AEYYEiW1N+noFDjBQyonPk3ZguElv9DgB8bv/bw9+U9o8DK1ScjJkrejEvoP2r9Bn6nANPd52l05digkV68v26fzb0c=",
    "EQ=="),
   ("iJWQ/xNLgaQM8A3XgQ4jmr4yOw4EQ8pcjQ2pJENouY9KfM5kjOGJdiOLnVYZqzDM6bk7wIVCBoO883dnWo4iXVvjsP1EPZ8fs9D2/u1bXtfcq7+ZWgvWGAmaiv9k2SAU8tq4W4ftseMg+CD1qtpGXylIxjWiR4GteZdgbFAS8Mc=",
    "BQ=="),
   ("5axg064+LI3qRPuYNbgpjlEqoFLpA6VMdJfHs4kJGo74Cl2o4E5JXwkceD26WxT6PzwhHZeqpDbJOgFHZ32OqLibrkDrLnL2pw3GDmoQ6lIPOLgUJjCmkrN35S+dXsFxMzXOLsZwz8JwojmjF+DwnRKCv+Uf49V378xvX7pg4hc=",
    "BQ=="),
   ("oOFpUEn0CdvWkCF3heD/etjalOiuis53GgbgIaNbh6JTKiFgs5qN1PuKXBIGhtQ9tmxj+JiZAUMzV5AylidbB1YN/l1DMq/7YZoD1nySkDwF0YS3aJMt+Q4S5PzHuoDazCI//ZzCL8nDG565Aunbgx+kQgr37dsYSdDY8rdOOVc=",
    "BQ==")]

structure Prime where
  n : Nat
  g : Nat
deriving DecidableEq

/-- The `Prime` constructor: `new BigInteger(b64tohex(str), 16)`.  The
catalog constants are valid base64, so the decode never fails. -/
def primeOfEntry (p : String × String) : Prime :=
  ⟨hexValList (((b64tohex p.1).toOption).getD []),
   hexValList (((b64tohex p.2).toOption).getD [])⟩

def primes : List Prime := primesB64.map primeOfEntry

/-- `decodeServerParamsString` from `src/index.ts`.  The prime-index
guard rejects only `params.N > primes.length`; `primes[params.N]` being
`undefined` (index out of range, or `NaN`) then surfaces as a
`TypeError` when `.n` is read. -/
def decodeServerParamsString (srpParams : String) : Except String ServerInfo := do
  let paramStrings ← splitParamsString srpParams
  if !(paramsHas paramStrings "N" && paramsHas paramStrings "s" &&
       paramsHas paramStrings "B" && paramsHas paramStrings "ss") then
    .error "didn't get everything we needed from server"
  else do
    let nIdx := jsParseInt10 ((paramsGet paramStrings "N").getD "")
    let s ← base64ToByteArray ((paramsGet paramStrings "s").getD "")
    let bHex ← b64tohex ((paramsGet paramStrings "B").getD "")
    let bVal := hexValList bHex
    let ss := (paramsGet paramStrings "ss").getD ""
    if (match nIdx with | some n => decide (n > primes.length) | none => false) then
      .error "invalid prime index"
    else
      match (match nIdx with | some n => primes.get? n | none => none) with
      | none => .error "TypeError: cannot read properties of undefined"
      | some p => .ok ⟨p.n, p.g, s, bVal, ss⟩

/-- `pad(0, 128)`: the 128-byte encoding of zero. -/
def zeroPad128 : List Nat := List.replicate 128 0

/-- The session key derived from the shared secret `0` — a constant,
independent of any user's verifier or password. -/
def sessionKeyOfZero : List Nat := HashStringToByteArray (SRPOps.MGF1SHA1 zeroPad128)

/-! ## Lemmas -/

theorem exceptBind_ok {α β : Type} (a : α) (f : α → Except String β) :
    (Except.ok a >>= f : Except String β) = f a := rfl

theorem exceptBind_error {α β : Type} (e : String) (f : α → Except String β) :
    ((Except.error e : Except String α) >>= f) = Except.error e := rfl

/-- Unfolding of `Server.finishLogin` on a `Started` state with a bigint
client public key: the dynamic kind checks of `u`, `Ss` and `Ms` all
pass, leaving the computation chain. -/
theorem finishLogin_started (N g : Nat) (s : List Nat) (b B v A : Nat) (M1 : String) :
    Server.finishLogin (ServerState.started N g s b B v) ⟨.big A, M1⟩ =
      (SRPOps.u A B >>= fun u =>
        if u = 0 then Except.error "precondition fail"
        else (SRPOps.K (SRPOps.Ss N A v u b) >>= fun K =>
          SRPOps.Ms A M1.data K >>= fun M => Except.ok (FinishResult.mk M K))) := rfl

/-- Unfolding of `SRPOps.Ms`. -/
theorem Ms_eq (A : Nat) (M : List Char) (K : List Nat) :
    SRPOps.Ms A M K = (bigIntegerToBytes A 128 >>= fun Ab =>
      Except.ok (sha1Hex (Ab ++ HashStringToByteArray M ++ K))) := rfl

theorem modPowAux_eq_pow_mod (f : Nat) : ∀ e b m, e < f → modPowAux f b e m = b ^ e % m := by
  induction f with
  | zero => intro e b m h; omega
  | succ f ih =>
    intro e b m h
    match e with
    | 0 => simp [modPowAux]
    | e + 1 =>
      have hlt : (e + 1) / 2 < f := by omega
      have hr : modPowAux f (b * b % m) ((e + 1) / 2) m = (b * b) ^ ((e + 1) / 2) % m := by
        rw [ih _ _ _ hlt, ← Nat.pow_mod]
      have hunfold : modPowAux (f + 1) b (e + 1) m =
          (if (e + 1) % 2 = 1 then modPowAux f (b * b % m) ((e + 1) / 2) m * b % m
           else modPowAux f (b * b % m) ((e + 1) / 2) m) := rfl
      have hsq : (b * b) ^ ((e + 1) / 2) = b ^ (2 * ((e + 1) / 2)) := by
        rw [← pow_two, ← pow_mul]
      by_cases hp : (e + 1) % 2 = 1
      · have h2 : 2 * ((e + 1) / 2) + 1 = e + 1 := by omega
        rw [hunfold, hr, if_pos hp, Nat.mod_mul_mod, hsq, ← pow_succ, h2]
      · have h2 : 2 * ((e + 1) / 2) = e + 1 := by omega
        rw [hunfold, hr, if_neg hp, hsq, h2]

theorem modPow_eq_pow_mod (b e m : Nat) : modPow b e m = b ^ e % m :=
  modPowAux_eq_pow_mod (e + 1) e b m (Nat.lt_succ_self e)

/-! ## Claim C2 -/

/-- C2. Client/server shared-secret agreement: for every modulus `N ≥ 2`,
generator `g`, exponents `a`, `b`, `x`, scrambling parameter `u` and
multiplier `k`, if `v = g ^ x mod N`, `A = SRPOps.A N g a` and
`B = (k * v + g ^ b) mod N`, then `SRPOps.Sc N g B k x a u =
SRPOps.Ss N A v u b`; consequently the session key `K` derived from the
shared secret is identical on both sides. -/
theorem c2_shared_secret_agreement
    (N g a b x u k A v B : Nat) (hN : 2 ≤ N)
    (hv : v = g ^ x % N) (hA : A = SRPOps.A N g a) (hB : B = (k * v + g ^ b) % N) :
    SRPOps.Sc N g B k x a u = SRPOps.Ss N A v u b ∧
    SRPOps.K (SRPOps.Sc N g B k x a u) = SRPOps.K (SRPOps.Ss N A v u b) := by
  have hS : SRPOps.Sc N g B k x a u = SRPOps.Ss N A v u b := by
    subst hv hA hB
    show modPow (((k * (g ^ x % N) + g ^ b) % N) + k * (N - modPow g x N) % N) (a + u * x) N =
      modPow (SRPOps.A N g a * modPow (g ^ x % N) u N) b N
    simp only [SRPOps.A, modPow_eq_pow_mod]
    have h0 : 0 < N := by omega
    have hvN : g ^ x % N < N := Nat.mod_lt _ h0
    -- the client's base is congruent to g ^ b
    have hbase1 : ((k * (g ^ x % N) + g ^ b) % N) + k * (N - g ^ x % N) % N ≡ g ^ b [MOD N] := by
      calc ((k * (g ^ x % N) + g ^ b) % N) + k * (N - g ^ x % N) % N
          ≡ (k * (g ^ x % N) + g ^ b) + k * (N - g ^ x % N) [MOD N] :=
            (Nat.mod_modEq _ _).add (Nat.mod_modEq _ _)
        _ = g ^ b + k * ((g ^ x % N) + (N - g ^ x % N)) := by ring
        _ = g ^ b + k * N := by rw [Nat.add_sub_cancel' hvN.le]
        _ ≡ g ^ b [MOD N] := by
            show (g ^ b + k * N) % N = g ^ b % N
            simp [Nat.add_mul_mod_self_right]
    -- the server's base is congruent to g ^ (a + x * u)
    have hbase2 : (g ^ a % N) * ((g ^ x % N) ^ u % N) ≡ g ^ (a + x * u) [MOD N] := by
      calc (g ^ a % N) * ((g ^ x % N) ^ u % N)
          ≡ g ^ a * ((g ^ x % N) ^ u) [MOD N] := (Nat.mod_modEq _ _).mul (Nat.mod_modEq _ _)
        _ ≡ g ^ a * (g ^ x) ^ u [MOD N] := (Nat.ModEq.refl _).mul ((Nat.mod_modEq _ _).pow u)
        _ = g ^ (a + x * u) := by rw [← pow_mul, ← pow_add]
    have h1 : (((k * (g ^ x % N) + g ^ b) % N) + k * (N - g ^ x % N) % N) ^ (a + u * x) ≡
        g ^ (b * (a + u * x)) [MOD N] := by
      have := hbase1.pow (a + u * x)
      rwa [← pow_mul] at this
    have h2 : ((g ^ a % N) * ((g ^ x % N) ^ u % N)) ^ b ≡ g ^ (b * (a + u * x)) [MOD N] := by
      have := hbase2.pow b
      rwa [← pow_mul, show (a + x * u) * b = b * (a + u * x) by ring] at this
    exact h1.trans h2.symm
  exact ⟨hS, by rw [hS]⟩

/-- C2, witness: a concrete instance with `N = 7`, `g = 3`, `a = 2`,
`b = 3`, `x = 1`, `u = 5`, `k = 4`. -/
theorem c2_shared_secret_agreement_witness :
    SRPOps.Sc 7 3 ((4 * (3 ^ 1 % 7) + 3 ^ 3) % 7) 4 1 2 5 =
      SRPOps.Ss 7 (SRPOps.A 7 3 2) (3 ^ 1 % 7) 5 3 :=
  (c2_shared_secret_agreement 7 3 2 3 1 5 4 (SRPOps.A 7 3 2) (3 ^ 1 % 7)
    ((4 * (3 ^ 1 % 7) + 3 ^ 3) % 7) (by norm_num) rfl rfl rfl).1

/-! ## Claim C3 -/

/-- C3. Client zero-rejection: `generatePublicKeyAndProof` on a fully
configured client aborts with the zero-check error (`'precondition
fail'`, the spec's `SecurityViolation`) whenever `B mod N = 0`, or the
scrambling parameter `u` computed from `A = g ^ a mod N` and `B` is zero,
or the multiplier `k` is zero (with `u` nonzero, matching the check
order: `B mod N` first, then `u` after computing `A`, then `k`).  In each
case the result is the bare error: no shared secret `S` or `K` is
produced, and in the embedding's definition the checks run in exactly the
source's order, before `Sc` is reached.  `1 ≤ N` reflects the
`bigint-mod-arith` precondition (its `modAdd` rejects `n ≤ 0` before the
zero check can run). -/
theorem c3_client_zero_rejection
    (user pass tok : String) (N g : Nat) (s : List Nat) (B a : Nat)
    (_hN : 1 ≤ N)
    (hzero : B % N = 0 ∨ SRPOps.u (SRPOps.A N g a) B = .ok 0 ∨
      (∃ uv, SRPOps.u (SRPOps.A N g a) B = .ok uv ∧ uv ≠ 0 ∧ SRPOps.k N g = .ok 0)) :
    Client.generatePublicKeyAndProof ⟨some ⟨user, pass⟩, some ⟨N, g, s, B, tok⟩⟩ a =
      .error "precondition fail" := by
  by_cases hB : B % N = 0
  · simp [Client.generatePublicKeyAndProof, hB]
  · rcases hzero with h | hu | ⟨uv, hu, huv, hk⟩
    · exact absurd h hB
    · simp [Client.generatePublicKeyAndProof, hB, hu, exceptBind_ok]
    · simp [Client.generatePublicKeyAndProof, hB, hu, huv, hk, exceptBind_ok]

/-- C3, witness: a server public key with `B mod N = 0` (here `B = 0`,
`N = 5`) is rejected before any computation. -/
theorem c3_client_zero_rejection_witness :
    Client.generatePublicKeyAndProof ⟨some ⟨"user", "pass"⟩, some ⟨5, 2, [1], 0, "t"⟩⟩ 3 =
      .error "precondition fail" :=
  c3_client_zero_rejection "user" "pass" "t" 5 2 [1] 0 3 (by norm_num) (.inl rfl)

/-! ## Claim C7 -/

/-- C7, counterexample: invoking `finishLogin` on a server on which
`startLogin` has not run does fail, but with `SRPOps.u`'s
invalid-argument error (the stored server public key is `undefined`, not
a bigint) — not with the distinct state-machine error (the source's
`'precondition fail'`, the spec's `PreconditionFailed`). -/
theorem c7_counterexample :
    Server.finishLogin ServerState.init ⟨.big 3, "ab"⟩ =
      .error "invalid argument: A and B must be big int for u" ∧
    "invalid argument: A and B must be big int for u" ≠ "precondition fail" :=
  ⟨rfl, by decide⟩

/-- C7, amended: `Server` keeps no state tag; before `startLogin` every
session field is `undefined`, so `finishLogin` fails when `SRPOps.u`
rejects the undefined stored public key — an `InvalidArgument`-kind
error, not a dedicated `PreconditionFailed`. -/
theorem c7_amended_unstarted_finishLogin_error (cp : ClientParams) :
    Server.finishLogin ServerState.init cp =
      .error "invalid argument: A and B must be big int for u" := by
  rcases cp with ⟨A, M⟩
  cases A <;> rfl

/-! ## Claim C8 -/

/-- C8, counterexample: `SRPOps.x` invoked with the non-string username
`undefined` does not reject with the invalid-argument error — the
`username || ''` defaulting substitutes the empty string and the call
succeeds, exactly as if `''` had been passed. -/
theorem c8_counterexample :
    SRPOps.xJS (.bytes [1]) .jsUndefined (.str "pw") = SRPOps.xJS (.bytes [1]) (.str "") (.str "pw") ∧
    (SRPOps.xJS (.bytes [1]) .jsUndefined (.str "pw")).isOk = true :=
  ⟨rfl, by decide⟩

/-- The `username || ''` defaulting is the identity on a value that is
already a string: a nonempty string is truthy and kept, and the empty
string is falsy but replaced by itself. -/
theorem str_default_id (s : String) :
    (if truthy (.str s) then JSVal.str s else .str "") = .str s := by
  by_cases h : s = ""
  · subst h
    simp [truthy]
  · simp [truthy, h]

/-- C8, amended: `SRPOps.x` rejects a truthy non-string username or a
truthy non-string password with the invalid-argument error, while a
falsy argument of any kind (`undefined`, `null`, `0`, `false`, `''`), in
either position, is silently replaced by the empty string, which then
passes the string check. -/
theorem c8_amended_x_validation (sl : List Nat) (v : JSVal) (ps us : String)
    (hv : truthy v = true) (hnv : ∀ s, v ≠ .str s) :
    SRPOps.xJS (.bytes sl) v (.str ps) =
      .error "invalid argument: User and password must be string for x" ∧
    SRPOps.xJS (.bytes sl) (.str us) v =
      .error "invalid argument: User and password must be string for x" ∧
    (∀ w : JSVal, truthy w = false →
      SRPOps.xJS (.bytes sl) w (.str ps) = SRPOps.xJS (.bytes sl) (.str "") (.str ps)) ∧
    (∀ w : JSVal, truthy w = false →
      SRPOps.xJS (.bytes sl) (.str us) w = SRPOps.xJS (.bytes sl) (.str us) (.str "")) := by
  refine ⟨?_, ?_, ?_, ?_⟩
  · cases v with
    | str s => exact absurd rfl (hnv s)
    | big n => simp [SRPOps.xJS, hv]
    | bytes l => simp [SRPOps.xJS, hv]
    | num x => simp [SRPOps.xJS, hv]
    | boolean b => simp [SRPOps.xJS, hv]
    | jsUndefined => simp [truthy] at hv
    | jsNull => simp [truthy] at hv
  · cases v with
    | str s => exact absurd rfl (hnv s)
    | big n => simp [SRPOps.xJS, hv, str_default_id]
    | bytes l => simp [SRPOps.xJS, hv, str_default_id]
    | num x => simp [SRPOps.xJS, hv, str_default_id]
    | boolean b => simp [SRPOps.xJS, hv, str_default_id]
    | jsUndefined => simp [truthy] at hv
    | jsNull => simp [truthy] at hv
  · intro w hw
    simp [SRPOps.xJS, hw]
  · intro w hw
    simp [SRPOps.xJS, hw]

/-- C8, witness: the truthy non-string `5` is rejected both as username
and as password, while the falsy non-string `undefined` in either
position is accepted via the `''` default. -/
theorem c8_amended_x_validation_witness :
    SRPOps.xJS (.bytes [1]) (.num 5) (.str "pw") =
      .error "invalid argument: User and password must be string for x" ∧
    SRPOps.xJS (.bytes [1]) (.str "user") (.num 5) =
      .error "invalid argument: User and password must be string for x" ∧
    SRPOps.xJS (.bytes [1]) .jsUndefined (.str "pw") =
      SRPOps.xJS (.bytes [1]) (.str "") (.str "pw") ∧
    SRPOps.xJS (.bytes [1]) (.str "user") .jsUndefined =
      SRPOps.xJS (.bytes [1]) (.str "user") (.str "") := by
  have h := c8_amended_x_validation [1] (.num 5) "pw" "user" (by decide) (by intro s h; cases h)
  exact ⟨h.1, h.2.1, h.2.2.1 .jsUndefined (by decide), h.2.2.2 .jsUndefined (by decide)⟩

/-! ## Claim C4 -/

/-- C4.  `Server.finishLogin` accepts a response with client public key
`A = 0`: for every `Started` session with server private key `b ≥ 1`,
whenever the derived scrambling parameter `u` is nonzero the call raises
no error, the computed shared secret is `Ss N 0 v u b = 0`, and the
stored `sharedKey` is the session key of `0` — a constant independent of
the stored verifier `v`, hence predictable without the password. -/
theorem c4_zero_client_key_accepted
    (N g : Nat) (s : List Nat) (b B v : Nat) (M1 : String) (u : Nat)
    (hb : 1 ≤ b) (hu : SRPOps.u 0 B = .ok u) (huz : u ≠ 0) :
    SRPOps.Ss N 0 v u b = 0 ∧
    ∃ M2, Server.finishLogin (ServerState.started N g s b B v) ⟨.big 0, M1⟩ =
      .ok ⟨M2, sessionKeyOfZero⟩ := by
  have hSs : SRPOps.Ss N 0 v u b = 0 := by
    show modPow (0 * modPow v u N) b N = 0
    rw [zero_mul, modPow_eq_pow_mod, zero_pow (by omega : b ≠ 0), Nat.zero_mod]
  have hpad : bigIntegerToBytes 0 128 = .ok zeroPad128 := rfl
  have hK0 : SRPOps.K 0 = .ok sessionKeyOfZero := rfl
  refine ⟨hSs, sha1Hex (zeroPad128 ++ HashStringToByteArray M1.data ++ sessionKeyOfZero), ?_⟩
  rw [finishLogin_started, hu, exceptBind_ok, if_neg huz, hSs, hK0, exceptBind_ok,
    Ms_eq, hpad, exceptBind_ok, exceptBind_ok]

set_option maxHeartbeats 4000000 in
/-- C4, witness: `N = 7`, `g = 3`, `b = 1`, `B = 5`, `v = 4`, `A = 0`. -/
theorem c4_zero_client_key_accepted_witness :
    SRPOps.Ss 7 0 4 ((SRPOps.u 0 5).toOption.getD 0) 1 = 0 ∧
    (Server.finishLogin (ServerState.started 7 3 [1] 1 5 4) ⟨.big 0, "00"⟩).isOk = true := by
  obtain ⟨h1, M2, h2⟩ := c4_zero_client_key_accepted 7 3 [1] 1 5 4 "00"
    ((SRPOps.u 0 5).toOption.getD 0) (by norm_num) (by rfl) (by decide)
  exact ⟨h1, by rw [h2]; rfl⟩

/-! ## Claim C1 -/

set_option maxHeartbeats 4000000 in
/-- C1, counterexample: a `Started` server session accepts two responses
carrying different client proofs (`"00"` and `"11"`) for the same client
public key — both calls return a `ServerProof` rather than an error.
Whatever value "the `M1` the server computes independently from its
stored state" denotes, at most one of the two submitted proofs can equal
it, so a response whose `M1` differs from that value is accepted,
refuting the claim that `finishLogin` fails on every mismatched proof. -/
theorem c1_counterexample :
    ("00" : String) ≠ "11" ∧
    (Server.finishLogin (ServerState.started 7 3 [1] 2 5 4) ⟨.big 3, "00"⟩).isOk = true ∧
    (Server.finishLogin (ServerState.started 7 3 [1] 2 5 4) ⟨.big 3, "11"⟩).isOk = true :=
  ⟨by decide, by decide, by decide⟩

/-- C1, amended: `Server.finishLogin` performs no verification of the
client's proof.  For every `Started` session and every response, as long
as the derived scrambling parameter `u` is nonzero (and the fixed-width
encodings succeed), the call succeeds: the returned `M2 = Ms(A, M1, K)`
is computed over whatever `M1` the client submitted, and the shared key
is stored, whether or not `M1` matches any independently derived
value. -/
theorem c1_amended_no_proof_verification
    (N g : Nat) (s : List Nat) (b B v A : Nat) (M1 : String)
    (u S0 : Nat) (K0 : List Nat) (M2 : List Char)
    (hu : SRPOps.u A B = .ok u) (huz : u ≠ 0)
    (hS : S0 = SRPOps.Ss N A v u b)
    (hK : SRPOps.K S0 = .ok K0)
    (hM : SRPOps.Ms A M1.data K0 = .ok M2) :
    Server.finishLogin (ServerState.started N g s b B v) ⟨.big A, M1⟩ = .ok ⟨M2, K0⟩ := by
  subst hS
  rw [finishLogin_started, hu, exceptBind_ok, if_neg huz, hK, exceptBind_ok, hM, exceptBind_ok]

set_option maxHeartbeats 8000000 in
/-- C1, witness for the amended theorem: the concrete `Started` session
of the counterexample accepts the proof `"00"`. -/
theorem c1_amended_no_proof_verification_witness :
    Server.finishLogin (ServerState.started 7 3 [1] 2 5 4) ⟨.big 3, "00"⟩ =
      .ok ⟨(SRPOps.Ms 3 "00".data
              ((SRPOps.K (SRPOps.Ss 7 3 4 ((SRPOps.u 3 5).toOption.getD 0) 2)).toOption.getD [])).toOption.getD [],
            (SRPOps.K (SRPOps.Ss 7 3 4 ((SRPOps.u 3 5).toOption.getD 0) 2)).toOption.getD []⟩ :=
  c1_amended_no_proof_verification 7 3 [1] 2 5 4 3 "00"
    ((SRPOps.u 3 5).toOption.getD 0)
    (SRPOps.Ss 7 3 4 ((SRPOps.u 3 5).toOption.getD 0) 2)
    ((SRPOps.K (SRPOps.Ss 7 3 4 ((SRPOps.u 3 5).toOption.getD 0) 2)).toOption.getD [])
    ((SRPOps.Ms 3 "00".data
        ((SRPOps.K (SRPOps.Ss 7 3 4 ((SRPOps.u 3 5).toOption.getD 0) 2)).toOption.getD [])).toOption.getD [])
    (by rfl) (by decide) rfl (by rfl) (by rfl)

/-! ## Claim C9 -/

/-- C9.  In `decodeServerParamsString` the prime-index guard rejects only
indexes strictly greater than the catalog length: for a parameter string
whose `N` field parses to exactly the number of catalog entries (5), the
`'invalid prime index'` error is not raised; instead `primes[5]` is
`undefined` and reading `.n` from it fails — the out-of-range access is
reachable despite the guard. -/
theorem c9_prime_index_guard_off_by_one :
    primes.length = 5 ∧
    decodeServerParamsString "N=5,s=AA==,B=BQ==,ss=x" =
      .error "TypeError: cannot read properties of undefined" ∧
    "TypeError: cannot read properties of undefined" ≠ "invalid prime index" :=
  ⟨rfl, by rfl, by decide⟩

/-! ## Hex string lemmas (for C5, C6, C10) -/

theorem hexVal_foldl_init (l : List Char) :
    ∀ init, l.foldl (fun a c => 16 * a + (hexCharVal c).getD 0) init =
      init * 16 ^ l.length + hexValList l := by
  induction l with
  | nil => intro init; simp [hexValList]
  | cons c t ih =>
    intro init
    show t.foldl _ (16 * init + (hexCharVal c).getD 0) = _
    rw [ih]
    show (16 * init + (hexCharVal c).getD 0) * 16 ^ t.length + hexValList t = _
    rw [show hexValList (c :: t) =
          List.foldl (fun a c => 16 * a + (hexCharVal c).getD 0) (16 * 0 + (hexCharVal c).getD 0) t
        from rfl, ih, List.length_cons, pow_succ]
    ring

theorem hexVal_cons (c : Char) (t : List Char) :
    hexValList (c :: t) = (hexCharVal c).getD 0 * 16 ^ t.length + hexValList t := by
  show List.foldl _ (16 * 0 + (hexCharVal c).getD 0) t = _
  rw [hexVal_foldl_init]
  ring_nf

theorem hexVal_append (l1 l2 : List Char) :
    hexValList (l1 ++ l2) = hexValList l1 * 16 ^ l2.length + hexValList l2 := by
  show List.foldl _ 0 (l1 ++ l2) = _
  rw [List.foldl_append, hexVal_foldl_init]
  rfl

theorem hexCharVal_getD_lt (c : Char) : (hexCharVal c).getD 0 < 16 := by
  show (if 48 ≤ c.toNat ∧ c.toNat ≤ 57 then some (c.toNat - 48)
    else if 97 ≤ c.toNat ∧ c.toNat ≤ 102 then some (c.toNat - 87)
    else if 65 ≤ c.toNat ∧ c.toNat ≤ 70 then some (c.toNat - 55)
    else none).getD 0 < 16
  split
  · rename_i h
    simp
    omega
  · split
    · rename_i h
      simp
      omega
    · split
      · rename_i h
        simp
        omega
      · simp

theorem hexVal_lt (l : List Char) : hexValList l < 16 ^ l.length := by
  induction l with
  | nil => simp [hexValList]
  | cons c t ih =>
    rw [hexVal_cons]
    have h1 := hexCharVal_getD_lt c
    have h2 : (hexCharVal c).getD 0 * 16 ^ t.length ≤ 15 * 16 ^ t.length :=
      Nat.mul_le_mul_right _ (by omega)
    calc (hexCharVal c).getD 0 * 16 ^ t.length + hexValList t
        < (hexCharVal c).getD 0 * 16 ^ t.length + 16 ^ t.length := by omega
      _ ≤ 15 * 16 ^ t.length + 16 ^ t.length := by omega
      _ = 16 ^ (t.length + 1) := by ring
      _ = 16 ^ (c :: t).length := by rw [List.length_cons]

theorem isHexChar_of_mem (c : Char) (h : c ∈ hexChars) : isHexChar c = true := by
  have hall : ∀ x ∈ hexChars, isHexChar x = true := by decide
  exact hall c h

theorem hexDig_mem_hexChars (k : Nat) (h : k < 16) : hexDig k ∈ hexChars := by
  interval_cases k <;> decide

theorem hexDig_hexCharVal (c : Char) (h : c ∈ hexChars) :
    hexDig ((hexCharVal c).getD 0) = c := by
  have hall : ∀ x ∈ hexChars, hexDig ((hexCharVal x).getD 0) = x := by decide
  exact hall c h

theorem hexCharVal_hexDig (k : Nat) (h : k < 16) : (hexCharVal (hexDig k)).getD 0 = k := by
  interval_cases k <;> decide

theorem natToHexAux_hexVal (f : Nat) :
    ∀ n, n < f → hexValList (natToHexAux f n) = n := by
  induction f with
  | zero => intro n h; omega
  | succ f ih =>
    intro n h
    by_cases h16 : n < 16
    · show hexValList (if n < 16 then [hexDig n] else _) = n
      rw [if_pos h16]
      show hexValList [hexDig n] = n
      rw [show hexValList [hexDig n] = (hexCharVal (hexDig n)).getD 0 from by
            rw [hexVal_cons]; simp [hexValList]]
      exact hexCharVal_hexDig n h16
    · show hexValList (if n < 16 then [hexDig n] else natToHexAux f (n / 16) ++ [hexDig (n % 16)]) = n
      rw [if_neg h16, hexVal_append, ih (n / 16) (by omega)]
      rw [show hexValList [hexDig (n % 16)] = (hexCharVal (hexDig (n % 16))).getD 0 from by
            rw [hexVal_cons]; simp [hexValList]]
      rw [hexCharVal_hexDig (n % 16) (by omega)]
      simp
      omega

theorem hexVal_natToHex (n : Nat) : hexValList (natToHex n) = n :=
  natToHexAux_hexVal (n + 1) n (Nat.lt_succ_self n)

theorem natToHexAux_ne_nil (f : Nat) : ∀ n, n < f → natToHexAux f n ≠ [] := by
  induction f with
  | zero => intro n h; omega
  | succ f _ =>
    intro n _
    by_cases h16 : n < 16
    · show (if n < 16 then [hexDig n] else _) ≠ []
      rw [if_pos h16]; simp
    · show (if n < 16 then [hexDig n] else natToHexAux f (n / 16) ++ [hexDig (n % 16)]) ≠ []
      rw [if_neg h16]; simp

theorem natToHex_ne_nil (n : Nat) : natToHex n ≠ [] :=
  natToHexAux_ne_nil (n + 1) n (Nat.lt_succ_self n)

theorem natToHexAux_mem (f : Nat) :
    ∀ n c, n < f → c ∈ natToHexAux f n → c ∈ hexChars := by
  induction f with
  | zero => intro n c h; omega
  | succ f ih =>
    intro n c h hc
    by_cases h16 : n < 16
    · rw [show natToHexAux (f + 1) n = if n < 16 then [hexDig n]
            else natToHexAux f (n / 16) ++ [hexDig (n % 16)] from rfl, if_pos h16] at hc
      simp at hc
      rw [hc]
      exact hexDig_mem_hexChars n h16
    · rw [show natToHexAux (f + 1) n = if n < 16 then [hexDig n]
            else natToHexAux f (n / 16) ++ [hexDig (n % 16)] from rfl, if_neg h16] at hc
      rcases List.mem_append.mp hc with h1 | h2
      · exact ih (n / 16) c (by omega) h1
      · simp at h2
        rw [h2]
        exact hexDig_mem_hexChars (n % 16) (by omega)

theorem natToHex_mem (n : Nat) (c : Char) (hc : c ∈ natToHex n) : c ∈ hexChars :=
  natToHexAux_mem (n + 1) n c (Nat.lt_succ_self n) hc

theorem natToHexAux_length (f : Nat) :
    ∀ n m, n < f → 1 ≤ m → n < 16 ^ m → (natToHexAux f n).length ≤ m := by
  induction f with
  | zero => intro n m h; omega
  | succ f ih =>
    intro n m h hm hnm
    by_cases h16 : n < 16
    · rw [show natToHexAux (f + 1) n = if n < 16 then [hexDig n]
            else natToHexAux f (n / 16) ++ [hexDig (n % 16)] from rfl, if_pos h16]
      simpa using hm
    · rw [show natToHexAux (f + 1) n = if n < 16 then [hexDig n]
            else natToHexAux f (n / 16) ++ [hexDig (n % 16)] from rfl, if_neg h16]
      have hm2 : 2 ≤ m := by
        by_contra hcon
        have : m = 1 := by omega
        subst this
        simp at hnm
        omega
      have hdiv : n / 16 < 16 ^ (m - 1) := by
        have h161 : (16 : Nat) ^ m = 16 ^ (m - 1) * 16 := by
          rw [← pow_succ]
          congr 1
          omega
        rw [h161] at hnm
        omega
      have := ih (n / 16) (m - 1) (by omega) (by omega) hdiv
      simp
      omega

theorem natToHex_length (n m : Nat) (hm : 1 ≤ m) (h : n < 16 ^ m) :
    (natToHex n).length ≤ m :=
  natToHexAux_length (n + 1) n m (Nat.lt_succ_self n) hm h

theorem natToHexAux_irrel (f1 : Nat) :
    ∀ f2 n, n < f1 → n < f2 → natToHexAux f1 n = natToHexAux f2 n := by
  induction f1 with
  | zero => intro f2 n h; omega
  | succ f1 ih =>
    intro f2 n h1 h2
    match f2 with
    | 0 => omega
    | f2 + 1 =>
      show (if n < 16 then [hexDig n] else natToHexAux f1 (n / 16) ++ [hexDig (n % 16)]) =
        (if n < 16 then [hexDig n] else natToHexAux f2 (n / 16) ++ [hexDig (n % 16)])
      by_cases h16 : n < 16
      · rw [if_pos h16, if_pos h16]
      · rw [if_neg h16, if_neg h16, ih f2 (n / 16) (by omega) (by omega)]

theorem natToHex_step (n : Nat) (h : 16 ≤ n) :
    natToHex n = natToHex (n / 16) ++ [hexDig (n % 16)] := by
  show natToHexAux (n + 1) n = _
  rw [show natToHexAux (n + 1) n = if n < 16 then [hexDig n]
        else natToHexAux n (n / 16) ++ [hexDig (n % 16)] from rfl, if_neg (by omega)]
  rw [natToHexAux_irrel n (n / 16 + 1) (n / 16) (by omega) (by omega)]
  rfl

theorem natToHex_small (n : Nat) (h : n < 16) : natToHex n = [hexDig n] := by
  show natToHexAux (n + 1) n = _
  match n, h with
  | n, h =>
    rw [show natToHexAux (n + 1) n = if n < 16 then [hexDig n]
          else natToHexAux n (n / 16) ++ [hexDig (n % 16)] from rfl, if_pos h]

theorem hexVal_singleton (c : Char) : hexValList [c] = (hexCharVal c).getD 0 := by
  rw [hexVal_cons]
  simp [hexValList]

theorem hexVal_replicate_zero (j : Nat) : hexValList (List.replicate j '0') = 0 := by
  induction j with
  | zero => rfl
  | succ j ih =>
    rw [List.replicate_succ, hexVal_cons, ih]
    simp [hexCharVal]

theorem natToHex_hexVal_no_leading_zero (ds : List Char) :
    ∀ c0 : Char, (∀ c ∈ c0 :: ds, c ∈ hexChars) → 1 ≤ (hexCharVal c0).getD 0 →
      natToHex (hexValList (c0 :: ds)) = c0 :: ds := by
  induction ds using List.reverseRecOn with
  | nil =>
    intro c0 hmem h1
    rw [hexVal_singleton, natToHex_small _ (hexCharVal_getD_lt c0),
      hexDig_hexCharVal c0 (hmem c0 (by simp))]
  | append_singleton init c ihinit =>
    intro c0 hmem h1
    rw [show c0 :: (init ++ [c]) = (c0 :: init) ++ [c] from rfl, hexVal_append,
      hexVal_singleton]
    have hmlb : 16 ^ init.length ≤ hexValList (c0 :: init) := by
      rw [hexVal_cons]
      have h2 : 1 * 16 ^ init.length ≤ (hexCharVal c0).getD 0 * 16 ^ init.length :=
        Nat.mul_le_mul_right _ h1
      omega
    have hpos : 0 < 16 ^ init.length := pow_pos (by norm_num) _
    have hvc := hexCharVal_getD_lt c
    simp only [List.length_singleton, pow_one]
    have h16 : 16 ≤ hexValList (c0 :: init) * 16 + (hexCharVal c).getD 0 := by omega
    rw [natToHex_step _ h16]
    have hdiv : (hexValList (c0 :: init) * 16 + (hexCharVal c).getD 0) / 16 =
        hexValList (c0 :: init) := by omega
    have hmod : (hexValList (c0 :: init) * 16 + (hexCharVal c).getD 0) % 16 =
        (hexCharVal c).getD 0 := by omega
    rw [hdiv, hmod,
      ihinit c0 (fun x hx => hmem x (by
        simp only [List.mem_cons, List.mem_append] at hx ⊢
        tauto)) h1,
      hexDig_hexCharVal c (hmem c (by simp))]

theorem substrLast_replicate_append (k : Nat) (s : List Char) (h : s.length ≤ k) :
    substrLast k (List.replicate k '0' ++ s) = List.replicate (k - s.length) '0' ++ s := by
  unfold substrLast
  rw [List.length_append, List.length_replicate,
    show k + s.length - k = s.length from by omega,
    List.drop_append_of_le_length (by rw [List.length_replicate]; omega),
    List.drop_replicate]

theorem replicate_pad_natToHex (ds : List Char) :
    ds ≠ [] → (∀ c ∈ ds, c ∈ hexChars) →
    List.replicate (ds.length - (natToHex (hexValList ds)).length) '0' ++
      natToHex (hexValList ds) = ds := by
  induction ds with
  | nil => intro h; exact absurd rfl h
  | cons c t ih =>
    intro _ hmem
    by_cases h1 : 1 ≤ (hexCharVal c).getD 0
    · rw [natToHex_hexVal_no_leading_zero t c hmem h1]
      simp
    · have hc0 : (hexCharVal c).getD 0 = 0 := by omega
      have hval : hexValList (c :: t) = hexValList t := by
        rw [hexVal_cons, hc0]
        simp
      have hc : c = '0' := by
        have hall : ∀ x ∈ hexChars, (hexCharVal x).getD 0 = 0 → x = '0' := by decide
        exact hall c (hmem c (by simp)) hc0
      cases t with
      | nil =>
        subst hc
        rw [hval, show hexValList ([] : List Char) = 0 from rfl,
          natToHex_small 0 (by norm_num)]
        rfl
      | cons d t2 =>
        have ihh := ih (by simp) (fun x hx => hmem x (by simp [hx]))
        rw [hval]
        subst hc
        have hlen : (natToHex (hexValList (d :: t2))).length ≤ t2.length + 1 := by
          have := natToHex_length (hexValList (d :: t2)) (d :: t2).length (by simp) (hexVal_lt _)
          simpa using this
        rw [show (('0' :: (d :: t2)).length) - (natToHex (hexValList (d :: t2))).length
              = ((d :: t2).length - (natToHex (hexValList (d :: t2))).length) + 1 from by
            simp only [List.length_cons]
            omega,
          List.replicate_succ, List.cons_append, ihh]

theorem substrLast_pad_spec (k n : Nat) (hk : 1 ≤ k) (h : n < 16 ^ k) :
    (substrLast k (List.replicate k '0' ++ natToHex n)).length = k ∧
    hexValList (substrLast k (List.replicate k '0' ++ natToHex n)) = n ∧
    ∀ c ∈ substrLast k (List.replicate k '0' ++ natToHex n), c ∈ hexChars := by
  have hl : (natToHex n).length ≤ k := natToHex_length n k hk h
  rw [substrLast_replicate_append k _ hl]
  refine ⟨?_, ?_, ?_⟩
  · simp
    omega
  · rw [hexVal_append, hexVal_replicate_zero, hexVal_natToHex]
    ring
  · intro c hc
    rcases List.mem_append.mp hc with h1 | h2
    · rw [List.eq_of_mem_replicate h1]
      decide
    · exact natToHex_mem n c h2

theorem pad_hexVal_of_chars (ds : List Char) (k : Nat) (hlen : ds.length = k)
    (hne : ds ≠ []) (hmem : ∀ c ∈ ds, c ∈ hexChars) :
    substrLast k (List.replicate k '0' ++ natToHex (hexValList ds)) = ds := by
  have hlt : hexValList ds < 16 ^ k := by
    rw [← hlen]
    exact hexVal_lt ds
  have hl : (natToHex (hexValList ds)).length ≤ k := by
    apply natToHex_length _ _ _ hlt
    rcases ds with _ | ⟨c, t⟩
    · exact absurd rfl hne
    · simp at hlen
      omega
  rw [substrLast_replicate_append k _ hl, ← hlen]
  exact replicate_pad_natToHex ds hne hmem

theorem takeWhile_hex_eq_self (l : List Char) (hmem : ∀ c ∈ l, c ∈ hexChars) :
    l.takeWhile isHexChar = l := by
  induction l with
  | nil => rfl
  | cons c t ih =>
    rw [List.takeWhile_cons, isHexChar_of_mem c (hmem c (by simp)), if_pos rfl,
      ih (fun x hx => hmem x (by simp [hx]))]

theorem jsParseIntHex_of_mem (l : List Char) (hne : l ≠ []) (hmem : ∀ c ∈ l, c ∈ hexChars) :
    jsParseIntHex l = some (hexValList l) := by
  unfold jsParseIntHex
  rw [takeWhile_hex_eq_self l hmem]
  cases l with
  | nil => exact absurd rfl hne
  | cons c t => rfl

theorem pad2Hex_eq_substrLast (n : Nat) :
    pad2Hex n = substrLast 2 (List.replicate 2 '0' ++ natToHex n) := rfl

theorem pad4Hex_eq_substrLast (n : Nat) :
    pad4Hex n = substrLast 4 (List.replicate 4 '0' ++ natToHex n) := rfl

theorem pad2Hex_spec (n : Nat) (h : n < 256) :
    (pad2Hex n).length = 2 ∧ hexValList (pad2Hex n) = n ∧ ∀ c ∈ pad2Hex n, c ∈ hexChars := by
  rw [pad2Hex_eq_substrLast]
  exact substrLast_pad_spec 2 n (by norm_num) (by norm_num; omega)

theorem pad4Hex_spec (n : Nat) (h : n < 65536) :
    (pad4Hex n).length = 4 ∧ hexValList (pad4Hex n) = n ∧ ∀ c ∈ pad4Hex n, c ∈ hexChars := by
  rw [pad4Hex_eq_substrLast]
  exact substrLast_pad_spec 4 n (by norm_num) (by norm_num; omega)

theorem pad2Hex_hexVal (ds : List Char) (hlen : ds.length = 2)
    (hmem : ∀ c ∈ ds, c ∈ hexChars) : pad2Hex (hexValList ds) = ds := by
  rw [pad2Hex_eq_substrLast]
  exact pad_hexVal_of_chars ds 2 hlen (by intro h; subst h; simp at hlen) hmem

theorem pad4Hex_hexVal (ds : List Char) (hlen : ds.length = 4)
    (hmem : ∀ c ∈ ds, c ∈ hexChars) : pad4Hex (hexValList ds) = ds := by
  rw [pad4Hex_eq_substrLast]
  exact pad_hexVal_of_chars ds 4 hlen (by intro h; subst h; simp at hlen) hmem

theorem bATHS_cons (b : Nat) (t : List Nat) :
    byteArrayToHashString (b :: t) = pad2Hex (b % 256) ++ byteArrayToHashString t := rfl

theorem bATHS_append (l1 l2 : List Nat) :
    byteArrayToHashString (l1 ++ l2) = byteArrayToHashString l1 ++ byteArrayToHashString l2 := by
  unfold byteArrayToHashString
  rw [List.flatMap_append]

theorem bATHS_length (l : List Nat) : (byteArrayToHashString l).length = 2 * l.length := by
  induction l with
  | nil => rfl
  | cons b t ih =>
    rw [bATHS_cons, List.length_append, ih, (pad2Hex_spec (b % 256) (Nat.mod_lt _ (by norm_num))).1]
    simp
    ring

theorem bATHS_mem_hexChars (l : List Nat) : ∀ c ∈ byteArrayToHashString l, c ∈ hexChars := by
  induction l with
  | nil => intro c hc; simp [byteArrayToHashString] at hc
  | cons b t ih =>
    intro c hc
    rw [bATHS_cons] at hc
    rcases List.mem_append.mp hc with h1 | h2
    · exact (pad2Hex_spec (b % 256) (Nat.mod_lt _ (by norm_num))).2.2 c h1
    · exact ih c h2

theorem bATHS_replicate_zero (j : Nat) :
    byteArrayToHashString (List.replicate j 0) = List.replicate (2 * j) '0' := by
  induction j with
  | zero => rfl
  | succ j ih =>
    rw [List.replicate_succ, bATHS_cons, ih,
      show (2 * (j + 1)) = (2 * j) + 1 + 1 from by ring,
      List.replicate_succ, List.replicate_succ]
    rfl

theorem HSTBA_pair (c1 c2 : Char) (t : List Char) :
    HashStringToByteArray (c1 :: c2 :: t) =
      (jsParseIntHex [c1, c2]).getD 0 :: HashStringToByteArray t := rfl

theorem HSTBA_append_even :
    ∀ (l1 l2 : List Char), l1.length % 2 = 0 →
      HashStringToByteArray (l1 ++ l2) =
        HashStringToByteArray l1 ++ HashStringToByteArray l2
  | [], _, _ => rfl
  | [_], _, h => by simp at h
  | c1 :: c2 :: t, l2, h => by
    rw [List.cons_append, List.cons_append, HSTBA_pair, HSTBA_pair,
      HSTBA_append_even t l2 (by simp only [List.length_cons] at h; omega)]
    rfl

theorem HSTBA_of_length_two (l : List Char) (h : l.length = 2) :
    HashStringToByteArray l = [(jsParseIntHex l).getD 0] := by
  rcases l with _ | ⟨c1, _ | ⟨c2, _ | _⟩⟩ <;> simp_all
  rfl

theorem HSTBA_bATHS (l : List Nat) (h : ∀ b ∈ l, b < 256) :
    HashStringToByteArray (byteArrayToHashString l) = l := by
  induction l with
  | nil => rfl
  | cons b t ih =>
    have hb : b < 256 := h b (by simp)
    have hmod : b % 256 = b := Nat.mod_eq_of_lt hb
    obtain ⟨hplen, hpval, hpmem⟩ := pad2Hex_spec (b % 256) (Nat.mod_lt _ (by norm_num))
    rw [bATHS_cons, HSTBA_append_even _ _ (by rw [hplen]),
      HSTBA_of_length_two _ hplen,
      jsParseIntHex_of_mem _ (by intro hnil; rw [hnil] at hplen; simp at hplen) hpmem,
      ih (fun x hx => h x (by simp [hx]))]
    show hexValList (pad2Hex (b % 256)) :: t = b :: t
    rw [hpval, hmod]

theorem bATHS_HSTBA :
    ∀ l : List Char, l.length % 2 = 0 → (∀ c ∈ l, c ∈ hexChars) →
      byteArrayToHashString (HashStringToByteArray l) = l
  | [], _, _ => rfl
  | [_], h, _ => by simp at h
  | c1 :: c2 :: t, h, hmem => by
    have hmem2 : ∀ c ∈ ([c1, c2] : List Char), c ∈ hexChars := by
      intro c hc
      simp at hc
      rcases hc with h1 | h2
      · rw [h1]
        exact hmem c1 (by simp)
      · rw [h2]
        exact hmem c2 (by simp)
    have hv : (jsParseIntHex [c1, c2]).getD 0 = hexValList [c1, c2] := by
      rw [jsParseIntHex_of_mem _ (by simp) hmem2]
      rfl
    have hvlt : hexValList [c1, c2] < 256 := by
      have := hexVal_lt [c1, c2]
      simpa using this
    rw [HSTBA_pair, bATHS_cons, hv, Nat.mod_eq_of_lt hvlt,
      pad2Hex_hexVal [c1, c2] rfl hmem2,
      bATHS_HSTBA t (by simp only [List.length_cons] at h; omega)
        (fun x hx => hmem x (by simp [hx]))]
    rfl

theorem bigIntToHex_even (x : Nat) : (bigIntToHex x).length % 2 = 0 := by
  unfold bigIntToHex
  by_cases h : (natToHex x).length % 2 ≠ 0
  · rw [if_pos h]
    simp
    omega
  · rw [if_neg h]
    omega

theorem bigIntToHex_ne_nil (x : Nat) : bigIntToHex x ≠ [] := by
  unfold bigIntToHex
  by_cases h : (natToHex x).length % 2 ≠ 0
  · rw [if_pos h]
    simp
  · rw [if_neg h]
    exact natToHex_ne_nil x

theorem bigIntToHex_mem (x : Nat) : ∀ c ∈ bigIntToHex x, c ∈ hexChars := by
  intro c hc
  unfold bigIntToHex at hc
  by_cases h : (natToHex x).length % 2 ≠ 0
  · rw [if_pos h] at hc
    rcases List.mem_cons.mp hc with h1 | h2
    · rw [h1]
      decide
    · exact natToHex_mem x c h2
  · rw [if_neg h] at hc
    exact natToHex_mem x c hc

theorem hexVal_bigIntToHex (x : Nat) : hexValList (bigIntToHex x) = x := by
  unfold bigIntToHex
  by_cases h : (natToHex x).length % 2 ≠ 0
  · rw [if_pos h, hexVal_cons]
    simp [hexCharVal]
    exact hexVal_natToHex x
  · rw [if_neg h]
    exact hexVal_natToHex x

theorem bigIntFromHex_of_mem (l : List Char) (hne : l ≠ []) (hmem : ∀ c ∈ l, c ∈ hexChars) :
    bigIntFromHex l = some (hexValList l) := by
  unfold bigIntFromHex
  rw [if_neg (by simpa using hne),
    if_pos (by rw [List.all_eq_true]; intro c hc; exact isHexChar_of_mem c (hmem c hc))]

/-! ## Claim C5 -/

/-- C5.  Fixed-width encoding round-trip and no silent truncation.  The
minimal big-endian encoding of `x` produced by the codec is
`HashStringToByteArray (bigIntToHex x)` (at least one byte, with no
leading zero byte except for `x = 0`).  If it fits in `w` bytes
(`length ≤ w`), `bigIntegerToBytes x w` returns exactly `w` bytes,
left-zero-padded, and `bigIntFromByteArray` (the codec's `fromBytes`)
decodes them back to `x`; if it does not fit and some excess leading byte
is nonzero, `bigIntegerToBytes` fails with the truncation error rather
than dropping data. -/
theorem c5_fixed_width_roundtrip (x w : Nat) :
    ((HashStringToByteArray (bigIntToHex x)).length ≤ w →
      bigIntegerToBytes x w =
        .ok (List.replicate (w - (HashStringToByteArray (bigIntToHex x)).length) 0 ++
          HashStringToByteArray (bigIntToHex x)) ∧
      (List.replicate (w - (HashStringToByteArray (bigIntToHex x)).length) 0 ++
          HashStringToByteArray (bigIntToHex x)).length = w ∧
      bigIntFromByteArray
        (List.replicate (w - (HashStringToByteArray (bigIntToHex x)).length) 0 ++
          HashStringToByteArray (bigIntToHex x)) = some x) ∧
    (w < (HashStringToByteArray (bigIntToHex x)).length →
      (∃ b ∈ (HashStringToByteArray (bigIntToHex x)).take
          ((HashStringToByteArray (bigIntToHex x)).length - w), b ≠ 0) →
      bigIntegerToBytes x w = .error ("attmpted to truncate to " ++ toString w)) := by
  have hround : ∀ j : Nat,
      bigIntFromByteArray (List.replicate j 0 ++ HashStringToByteArray (bigIntToHex x)) =
        some x := by
    intro j
    unfold bigIntFromByteArray
    rw [bATHS_append, bATHS_replicate_zero,
      bATHS_HSTBA (bigIntToHex x) (bigIntToHex_even x) (bigIntToHex_mem x),
      bigIntFromHex_of_mem _
        (by
          intro hnil
          have h2 := List.append_eq_nil.mp hnil
          exact bigIntToHex_ne_nil x h2.2)
        (by
          intro c hc
          rcases List.mem_append.mp hc with h1 | h2
          · rw [List.eq_of_mem_replicate h1]
            decide
          · exact bigIntToHex_mem x c h2),
      hexVal_append, hexVal_replicate_zero, hexVal_bigIntToHex]
    simp
  constructor
  · intro hle
    refine ⟨?_, ?_, hround _⟩
    · unfold bigIntegerToBytes
      by_cases heq : (HashStringToByteArray (bigIntToHex x)).length = w
      · rw [if_pos heq, heq]
        simp
      · rw [if_neg heq, if_pos (by omega)]
    · simp
      omega
  · intro hgt hex
    unfold bigIntegerToBytes
    rw [if_neg (by omega), if_neg (by omega),
      if_neg (by
        rw [List.all_eq_true]
        push_neg
        obtain ⟨b, hb1, hb2⟩ := hex
        exact ⟨b, hb1, by simpa using hb2⟩)]

/-- C5, witness: `x = 768` fits in `w = 3` bytes (encoding
`[0, 3, 0]`) and round-trips; `x = 256` does not fit in `w = 1` byte and
the encoder fails. -/
theorem c5_fixed_width_roundtrip_witness :
    bigIntegerToBytes 768 3 =
      .ok (List.replicate (3 - (HashStringToByteArray (bigIntToHex 768)).length) 0 ++
        HashStringToByteArray (bigIntToHex 768)) ∧
    bigIntFromByteArray
      (List.replicate (3 - (HashStringToByteArray (bigIntToHex 768)).length) 0 ++
        HashStringToByteArray (bigIntToHex 768)) = some 768 ∧
    bigIntegerToBytes 256 1 = .error ("attmpted to truncate to " ++ toString 1) := by
  obtain ⟨h1, _, h3⟩ := (c5_fixed_width_roundtrip 768 3).1 (by decide)
  refine ⟨h1, h3, ?_⟩
  exact (c5_fixed_width_roundtrip 256 1).2 (by decide) ⟨1, by decide, by decide⟩

/-! ## Claim C6 -/

theorem sha1Bytes_length (msg : List Nat) : (sha1Bytes msg).length = 20 := by
  unfold sha1Bytes word4Bytes
  simp

theorem sha1Bytes_lt (msg : List Nat) : ∀ b ∈ sha1Bytes msg, b < 256 := by
  intro b hb
  unfold sha1Bytes word4Bytes at hb
  simp at hb
  omega

theorem sha1Hex_length (msg : List Nat) : (sha1Hex msg).length = 40 := by
  unfold sha1Hex
  rw [bATHS_length, sha1Bytes_length]

theorem K_eq (S : Nat) :
    SRPOps.K S = (bigIntegerToBytes S 128 >>= fun Sb =>
      .ok (HashStringToByteArray (SRPOps.MGF1SHA1 Sb))) := rfl

/-- C6.  Session-key derivation is MGF1-SHA1: for every `S` whose
128-byte encoding succeeds (`S` fits in 128 bytes), `SRPOps.K S` returns
exactly 40 bytes — the SHA-1 digest of `pad(S,128) ‖ 00 00 00 00`
followed by the SHA-1 digest of `pad(S,128) ‖ 00 00 00 01`. -/
theorem c6_session_key_is_mgf1_sha1 (S : Nat) (pb : List Nat)
    (hpb : bigIntegerToBytes S 128 = .ok pb) :
    SRPOps.K S = .ok (sha1Bytes (pb ++ [0, 0, 0, 0]) ++ sha1Bytes (pb ++ [0, 0, 0, 1])) ∧
    (sha1Bytes (pb ++ [0, 0, 0, 0]) ++ sha1Bytes (pb ++ [0, 0, 0, 1])).length = 40 := by
  constructor
  · rw [K_eq, hpb, exceptBind_ok]
    show Except.ok (HashStringToByteArray
        (sha1Hex (pb ++ [0, 0, 0, 0]) ++ sha1Hex (pb ++ [0, 0, 0, 1]))) = _
    rw [HSTBA_append_even _ _ (by rw [sha1Hex_length])]
    unfold sha1Hex
    rw [HSTBA_bATHS _ (sha1Bytes_lt _), HSTBA_bATHS _ (sha1Bytes_lt _)]
  · rw [List.length_append, sha1Bytes_length, sha1Bytes_length]

/-- C6, witness: `S = 0`. -/
theorem c6_session_key_is_mgf1_sha1_witness :
    SRPOps.K 0 = .ok (sha1Bytes (List.replicate 128 0 ++ [0, 0, 0, 0]) ++
      sha1Bytes (List.replicate 128 0 ++ [0, 0, 0, 1])) ∧
    (sha1Bytes (List.replicate 128 0 ++ [0, 0, 0, 0]) ++
      sha1Bytes (List.replicate 128 0 ++ [0, 0, 0, 1])).length = 40 :=
  c6_session_key_is_mgf1_sha1 0 (List.replicate 128 0) (by rfl)

/-! ## Claim C10 -/

theorem xorChunks_append4 (c cs bs : List Char) (hc : c.length = 4) :
    xorChunks (c ++ cs) bs =
      pad4Hex ((jsParseIntHex c).getD 0 ^^^ (jsParseIntHex (bs.take 4)).getD 0) ++
        xorChunks cs (bs.drop 4) := by
  rcases c with _ | ⟨x1, _ | ⟨x2, _ | ⟨x3, _ | ⟨x4, _ | _⟩⟩⟩⟩ <;> simp_all
  rfl

theorem xorChunks_involution_fuel (n : Nat) :
    ∀ (as bs : List Char), as.length ≤ n → as.length = bs.length → as.length % 4 = 0 →
      (∀ c ∈ as, c ∈ hexChars) → (∀ c ∈ bs, c ∈ hexChars) →
      (xorChunks as bs).length = as.length ∧ xorChunks (xorChunks as bs) bs = as := by
  induction n with
  | zero =>
    intro as bs hn _ _ _ _
    rcases as with _ | _
    · exact ⟨rfl, rfl⟩
    · simp at hn
  | succ n ih =>
    intro as bs hn hlen h4 ha hb
    rcases as with _ | ⟨a1, _ | ⟨a2, _ | ⟨a3, _ | ⟨a4, as'⟩⟩⟩⟩
    · exact ⟨rfl, rfl⟩
    · simp at h4
    · simp at h4
    · simp at h4
    rcases bs with _ | ⟨b1, bs1⟩
    · simp only [List.length_cons, List.length_nil] at hlen
      omega
    rcases bs1 with _ | ⟨b2, bs2⟩
    · simp only [List.length_cons, List.length_nil] at hlen
      omega
    rcases bs2 with _ | ⟨b3, bs3⟩
    · simp only [List.length_cons, List.length_nil] at hlen
      omega
    rcases bs3 with _ | ⟨b4, bs'⟩
    · simp only [List.length_cons, List.length_nil] at hlen
      omega
    simp only [List.length_cons] at hlen
    have hmema : ∀ c ∈ ([a1, a2, a3, a4] : List Char), c ∈ hexChars := by
      intro c hc
      simp at hc
      rcases hc with h | h | h | h <;> (rw [h]; exact ha _ (by simp))
    have hmemb : ∀ c ∈ ([b1, b2, b3, b4] : List Char), c ∈ hexChars := by
      intro c hc
      simp at hc
      rcases hc with h | h | h | h <;> (rw [h]; exact hb _ (by simp))
    have hpa : jsParseIntHex [a1, a2, a3, a4] = some (hexValList [a1, a2, a3, a4]) :=
      jsParseIntHex_of_mem _ (by simp) hmema
    have hpb : jsParseIntHex [b1, b2, b3, b4] = some (hexValList [b1, b2, b3, b4]) :=
      jsParseIntHex_of_mem _ (by simp) hmemb
    have hva : hexValList [a1, a2, a3, a4] < 2 ^ 16 := by
      have h := hexVal_lt [a1, a2, a3, a4]
      rw [show ([a1, a2, a3, a4] : List Char).length = 4 from rfl] at h
      exact lt_of_lt_of_le h (by norm_num)
    have hvb : hexValList [b1, b2, b3, b4] < 2 ^ 16 := by
      have h := hexVal_lt [b1, b2, b3, b4]
      rw [show ([b1, b2, b3, b4] : List Char).length = 4 from rfl] at h
      exact lt_of_lt_of_le h (by norm_num)
    have hxlt : (hexValList [a1, a2, a3, a4] ^^^ hexValList [b1, b2, b3, b4]) < 65536 :=
      lt_of_lt_of_le (Nat.xor_lt_two_pow hva hvb) (by norm_num)
    obtain ⟨hplen, hpval, hpmem⟩ := pad4Hex_spec _ hxlt
    have hstep : xorChunks (a1 :: a2 :: a3 :: a4 :: as') (b1 :: b2 :: b3 :: b4 :: bs') =
        pad4Hex (hexValList [a1, a2, a3, a4] ^^^ hexValList [b1, b2, b3, b4]) ++
          xorChunks as' bs' := by
      show pad4Hex ((jsParseIntHex [a1, a2, a3, a4]).getD 0 ^^^
          (jsParseIntHex [b1, b2, b3, b4]).getD 0) ++ xorChunks as' bs' = _
      rw [hpa, hpb]
      rfl
    obtain ⟨ihL, ihInv⟩ := ih as' bs'
      (by simp only [List.length_cons] at hn; omega) (by omega)
      (by simp only [List.length_cons] at h4 ⊢; omega)
      (fun x hx => ha x (by simp [hx])) (fun x hx => hb x (by simp [hx]))
    constructor
    · rw [hstep, List.length_append, hplen, ihL]
      simp only [List.length_cons]
      omega
    · rw [hstep, xorChunks_append4 _ _ _ hplen]
      show pad4Hex ((jsParseIntHex (pad4Hex _)).getD 0 ^^^
          (jsParseIntHex [b1, b2, b3, b4]).getD 0) ++ xorChunks (xorChunks as' bs') bs' = _
      rw [jsParseIntHex_of_mem _ (by
            intro hnil
            rw [hnil] at hplen
            simp at hplen) hpmem,
        hpb]
      show pad4Hex ((hexValList (pad4Hex _)) ^^^ _) ++ _ = _
      rw [hpval]
      simp only [Option.getD_some]
      rw [Nat.xor_cancel_right, ihInv,
        pad4Hex_hexVal [a1, a2, a3, a4] rfl hmema]
      rfl

theorem xorChunks_involution (as bs : List Char) (hlen : as.length = bs.length)
    (h4 : as.length % 4 = 0) (ha : ∀ c ∈ as, c ∈ hexChars) (hb : ∀ c ∈ bs, c ∈ hexChars) :
    (xorChunks as bs).length = as.length ∧ xorChunks (xorChunks as bs) bs = as :=
  xorChunks_involution_fuel as.length as bs le_rfl hlen h4 ha hb

/-- C10.  The XOR helper is its own inverse: for equal-length hex hash
strings whose length is a multiple of four characters,
`xorHashStrings (xorHashStrings a b) b = a`. -/
theorem c10_xor_self_inverse (a b : String) (hlen : a.length = b.length)
    (h4 : a.length % 4 = 0) (ha : ∀ c ∈ a.data, c ∈ hexChars)
    (hb : ∀ c ∈ b.data, c ∈ hexChars) :
    ∃ c, xorHashStrings a b = .ok c ∧ xorHashStrings c b = .ok a := by
  obtain ⟨hL, hInv⟩ := xorChunks_involution a.data b.data hlen h4 ha hb
  refine ⟨String.mk (xorChunks a.data b.data), ?_, ?_⟩
  · unfold xorHashStrings
    rw [if_neg (by simp [hlen])]
  · unfold xorHashStrings
    rw [if_neg (by
      show ¬(xorChunks a.data b.data).length ≠ b.length
      rw [hL]
      simp [hlen])]
    show Except.ok (String.mk (xorChunks (xorChunks a.data b.data) b.data)) = _
    rw [hInv]

/-- C10, witness: the repository's own XOR test vector. -/
theorem c10_xor_self_inverse_witness :
    xorHashStrings
      ((xorHashStrings "6310e7f959b8d6cb58505a80e7115b2e77502c8e"
          "24d65375092b75cb05060f1561c8b079839a3fda").toOption.getD "")
      "24d65375092b75cb05060f1561c8b079839a3fda" =
      .ok "6310e7f959b8d6cb58505a80e7115b2e77502c8e" := by
  obtain ⟨c, h1, h2⟩ := c10_xor_self_inverse
    "6310e7f959b8d6cb58505a80e7115b2e77502c8e"
    "24d65375092b75cb05060f1561c8b079839a3fda"
    (by decide) (by decide) (by decide) (by decide)
  rw [h1]
  exact h2

end NIAuth
